import Mathlib

/-!
Shallow embedding of the scheduling and fleet-management core of the `bb`
repository: the `PriorityQueue` line-cutting scheduler, the `StockBot`
observation-persistence step and fair URL interleaving, and the
`ProxyManager` retry/backoff, region round-robin and region-resource
creation paths.  JavaScript `Map`s become insertion-ordered association
lists, `Date.now()` timestamps become explicit `Nat` parameters, and the
cooperative (await-point) concurrency of the resource-creation paths is
modelled as an explicit interleaving semantics over per-thread program
counters.
-/

/-- Association-list lookup mirroring JavaScript `Map.prototype.get`:
the value of the first entry carrying the given key (keys are unique in a
JS `Map`, so "first" is "the" entry). -/
def lookupKey {α : Type} (m : List (String × α)) (k : String) : Option α :=
  (m.find? (fun e => e.1 == k)).map (fun e => e.2)

/-- JavaScript `Map.prototype.delete`: remove the entry carrying the key. -/
def eraseKey {α : Type} (m : List (String × α)) (k : String) : List (String × α) :=
  m.filter (fun e => e.1 != k)

/-- JavaScript `Map.prototype.set`: overwrite in place when the key exists
(a JS `Map` keeps the original insertion position), append otherwise. -/
def setKey {α : Type} (m : List (String × α)) (k : String) (v : α) : List (String × α) :=
  if m.any (fun e => e.1 == k) then m.map (fun e => if e.1 == k then (k, v) else e)
  else m ++ [(k, v)]

/-! ## PriorityQueue (src/unnamed/part_002, lines 617-760) -/

/-- Value stored in `priorityMap`: `{ priority: 1-3, addedAt: timestamp }`. -/
structure PriorityInfo where
  priority : Nat
  addedAt : Nat
deriving DecidableEq, Repr

/-- Element of the `readyPriorityUrls` working list built inside
`getNextPriorityUrl`: `{ url, priority, addedAt }`. -/
structure PriorityEntry where
  url : String
  priority : Nat
  addedAt : Nat
deriving DecidableEq, Repr

/-- The `PriorityQueue` object state.  `urls` is the base rotation,
`currentIndex` the base cursor, `priorityMap` and `lastPriorityCheck` the
two JS `Map`s, and the two numeric fields are the constructor constants
`maxLineCuts = 5` and `priorityCheckInterval = 30000`. -/
structure PriorityQueue where
  urls : List String
  currentIndex : Nat
  priorityMap : List (String × PriorityInfo)
  lastPriorityCheck : List (String × Nat)
  maxLineCuts : Nat
  priorityCheckInterval : Nat
deriving DecidableEq, Repr

/-- `PriorityQueue.prototype.initialize(urls)` (the source method is named
`initialize`): copy the url list, reset the cursor and clear both maps.
The constructor constants are `maxLineCuts = 5`,
`priorityCheckInterval = 30000`. -/
def initQueue (urls : List String) : PriorityQueue :=
  { urls := urls
    currentIndex := 0
    priorityMap := []
    lastPriorityCheck := []
    maxLineCuts := 5
    priorityCheckInterval := 30000 }

/-- `setPriority(url, priority, reason)`; the `reason` argument only feeds
logging and is dropped.  `now` stands for the `Date.now()` call sites.
Priority `0` deletes the record (and its throttle timestamp); an unchanged
non-zero priority only refreshes `addedAt`; a changed one replaces the
record. -/
def PriorityQueue.setPriority (q : PriorityQueue) (url : String) (priority : Nat)
    (now : Nat) : PriorityQueue :=
  if priority = 0 then
    { q with priorityMap := eraseKey q.priorityMap url
             lastPriorityCheck := eraseKey q.lastPriorityCheck url }
  else
    match lookupKey q.priorityMap url with
    | some existing =>
      if existing.priority = priority then
        { q with priorityMap := setKey q.priorityMap url { existing with addedAt := now } }
      else
        { q with priorityMap := setKey q.priorityMap url { priority := priority, addedAt := now } }
    | none =>
      { q with priorityMap := setKey q.priorityMap url { priority := priority, addedAt := now } }

/-- The circular forward cut distance computed inside `canCutInLine`:
`urlIndex - currentIndex` when the url is at or ahead of the cursor, else
`(urls.length - currentIndex) + urlIndex`. -/
def cutDistance (len currentIndex urlIndex : Nat) : Nat :=
  if urlIndex ≥ currentIndex then urlIndex - currentIndex
  else (len - currentIndex) + urlIndex

/-- The `maxCutsForPriority` table: tier 1 cuts up to `maxLineCuts * 2`,
tier 2 up to `maxLineCuts`, tier 3 up to `Math.floor(maxLineCuts / 2)`;
any other priority falls through to the JS `|| 0` default. -/
def maxCutsForPriority (maxLineCuts priority : Nat) : Nat :=
  match priority with
  | 1 => maxLineCuts * 2
  | 2 => maxLineCuts
  | 3 => maxLineCuts / 2
  | _ => 0

/-- `canCutInLine(url, priority)`: locate the url in the base rotation
(JS `indexOf`, `-1` meaning absent, modelled with `findIdx?`) and compare
the circular distance against the tier's limit (`<=` in the source). -/
def PriorityQueue.canCutInLine (q : PriorityQueue) (url : String) (priority : Nat) : Bool :=
  match q.urls.findIdx? (fun u => u == url) with
  | none => false
  | some urlIndex =>
    decide (cutDistance q.urls.length q.currentIndex urlIndex ≤
      maxCutsForPriority q.maxLineCuts priority)

/-- The `readyPriorityUrls` list: entries of `priorityMap` whose time since
the last priority check (`lastPriorityCheck.get(url) || 0`) is at least
`priorityCheckInterval`.  JS computes `now - lastCheck` as a possibly
negative number; with the interval strictly positive the truncated `Nat`
subtraction decides the same comparison. -/
def readyPriorityEntries (q : PriorityQueue) (now : Nat) : List PriorityEntry :=
  q.priorityMap.filterMap (fun e =>
    if q.priorityCheckInterval ≤ now - (lookupKey q.lastPriorityCheck e.1).getD 0 then
      some { url := e.1, priority := e.2.priority, addedAt := e.2.addedAt }
    else none)

/-- The comparator of `readyPriorityUrls.sort((a, b) => ...)`: priority
ascending, then `addedAt` ascending.  It is kept non-strict so that the
stable `List.insertionSort` below computes exactly the list produced by
JavaScript's stable `Array.prototype.sort`. -/
def entryLE (a b : PriorityEntry) : Prop :=
  a.priority < b.priority ∨ (a.priority = b.priority ∧ a.addedAt ≤ b.addedAt)

instance : DecidableRel entryLE := fun a b =>
  inferInstanceAs (Decidable (a.priority < b.priority ∨
    (a.priority = b.priority ∧ a.addedAt ≤ b.addedAt)))

instance : IsTotal PriorityEntry entryLE :=
  ⟨by intro a b; unfold entryLE; omega⟩

instance : IsTrans PriorityEntry entryLE :=
  ⟨by intro a b c; unfold entryLE; omega⟩

/-- The sorted candidate list inside `getNextPriorityUrl`. -/
def sortedReadyEntries (q : PriorityQueue) (now : Nat) : List PriorityEntry :=
  List.insertionSort entryLE (readyPriorityEntries q now)

/-- The candidate `getNextPriorityUrl` settles on: the first sorted ready
entry that can cut in line (the source's `for` loop with early `return`). -/
def PriorityQueue.getNextPriorityCandidate (q : PriorityQueue) (now : Nat) :
    Option PriorityEntry :=
  (sortedReadyEntries q now).find? (fun e => q.canCutInLine e.url e.priority)

/-- `getNextPriorityUrl()`: on success records the check time of the chosen
url in `lastPriorityCheck` and yields the url; otherwise leaves the queue
untouched.  The mutation is returned as an updated queue. -/
def PriorityQueue.getNextPriorityUrl (q : PriorityQueue) (now : Nat) :
    Option String × PriorityQueue :=
  match q.getNextPriorityCandidate now with
  | some e => (some e.url, { q with lastPriorityCheck := setKey q.lastPriorityCheck e.url now })
  | none => (none, q)

/-- `getNextUrl()`: `null` on an empty rotation; otherwise a due priority
url if any, else the url under the cursor with the cursor advanced by one
modulo the rotation length. -/
def PriorityQueue.getNextUrl (q : PriorityQueue) (now : Nat) :
    Option String × PriorityQueue :=
  if q.urls.length = 0 then (none, q)
  else
    match q.getNextPriorityUrl now with
    | (some u, q2) => (some u, q2)
    | (none, q2) =>
      (some (q.urls.getD q.currentIndex ""),
        { q2 with currentIndex := (q.currentIndex + 1) % q.urls.length })

/-- The fields of the object returned by `getStatus()` that bear on the
cursor claims (the `priorityStats` tally is independent of them and
omitted). -/
structure QueueStatus where
  totalUrls : Nat
  currentPosition : Nat
  cycle : Nat
deriving DecidableEq, Repr

/-- `getStatus()`: total url count, the 1-indexed cursor position, and
`Math.floor(currentIndex / urls.length) + 1`. -/
def PriorityQueue.getStatus (q : PriorityQueue) : QueueStatus :=
  { totalUrls := q.urls.length
    currentPosition := q.currentIndex + 1
    cycle := q.currentIndex / q.urls.length + 1 }

/-- A queue state in pure base rotation: the state reached from
`initQueue urls` by non-priority pulls only, with the cursor at `j`. -/
def baseQueueAt (urls : List String) (j : Nat) : PriorityQueue :=
  { urls := urls
    currentIndex := j
    priorityMap := []
    lastPriorityCheck := []
    maxLineCuts := 5
    priorityCheckInterval := 30000 }

/-- Every priority stored by `setPriority` is non-zero (a zero priority
deletes instead), so reachable priority maps carry only non-zero tiers. -/
def PMapWF (q : PriorityQueue) : Prop :=
  ∀ e ∈ q.priorityMap, e.2.priority ≠ 0

/-- Fold a list of `setPriority` calls `(url, priority, now)` over a queue:
the states reachable from an initialized queue by such sequences. -/
def applySetPriorityOps (q : PriorityQueue) (ops : List (String × Nat × Nat)) :
    PriorityQueue :=
  ops.foldl (fun q op => q.setPriority op.1 op.2.1 op.2.2) q

/-- `k` successive non-priority pulls: iterate `getNextUrl` keeping only the
queue (the timestamp is irrelevant while the priority map stays empty). -/
def pullN (q : PriorityQueue) : Nat → PriorityQueue
  | 0 => q
  | k + 1 => pullN ((q.getNextUrl 0).2) k

/-! ## StockBot.interleaveUrls (src/unnamed/part_002, lines 955-970) -/

/-- One pass of the inner `for` loop: shift the head of every non-empty
queue, in queue order. -/
def interleaveRound (queues : List (List String)) : List String :=
  queues.filterMap List.head?

/-- Fuel-driven transcription of the `while (urlQueues.some(q => q.length > 0))`
loop; the fuel is instantiated with the total number of urls, which the loop
can never exceed since every iteration with a non-empty queue shifts at
least one url. -/
def interleaveGo : Nat → List (List String) → List String
  | 0, _ => []
  | fuel + 1, queues =>
    if (queues.map List.length).sum = 0 then []
    else interleaveRound queues ++ interleaveGo fuel (queues.map List.tail)

/-- `StockBot.prototype.interleaveUrls` restricted to its pure core: from
the per-product url lists, produce the interleaved base rotation. -/
def interleaveUrls (productUrls : List (List String)) : List String :=
  interleaveGo (productUrls.map List.length).sum productUrls

/-! ## StockBot observation persistence (src/unnamed/part_002, lines 1161-1240) -/

/-- A row of the per-product stock table: the `stockEntry` object literal
of `processStockData`. -/
structure StockEntry where
  url : String
  state0 : String
  state1 : String
  state2 : String
  state3 : String
  state4 : String
  state5 : String
  stock : String
  lastChecked : String
deriving DecidableEq, Repr

/-- `hasDataChanged(existingEntry, newEntry)`: `true` when there is no
persisted entry; otherwise compare the space-joined six state slots and the
stock flag.  `lastChecked` is never consulted. -/
def hasDataChanged (existingEntry : Option StockEntry) (newEntry : StockEntry) : Bool :=
  match existingEntry with
  | none => true
  | some e =>
    let oldStates := String.intercalate " "
      [e.state0, e.state1, e.state2, e.state3, e.state4, e.state5]
    let newStates := String.intercalate " "
      [newEntry.state0, newEntry.state1, newEntry.state2, newEntry.state3,
        newEntry.state4, newEntry.state5]
    oldStates != newStates || e.stock != newEntry.stock

/-- The externally visible effects of one `processStockData` persistence
step: whether the in-memory per-product map was updated, whether the TSV
file was rewritten, and whether `broadcastUpdate` was sent. -/
structure ProcessEffects where
  storeUpdated : Bool
  fileRewritten : Bool
  broadcastUpdate : Bool
deriving DecidableEq, Repr

/-- The persistence decision of `processStockData` (lines 1200-1216), after
the new `stockEntry` has been built: look up the previous entry for the
url, ask `hasDataChanged`, update the map and rewrite the file only on a
change, and broadcast to web clients unconditionally (the `webServer`
collaborator is present). -/
def processStockDataStep (urlMap : List (String × StockEntry)) (url : String)
    (stockEntry : StockEntry) : List (String × StockEntry) × ProcessEffects :=
  let existingEntry := lookupKey urlMap url
  let dataChanged := hasDataChanged existingEntry stockEntry
  if dataChanged then
    (setKey urlMap url stockEntry,
      { storeUpdated := true, fileRewritten := true, broadcastUpdate := true })
  else
    (urlMap,
      { storeUpdated := false, fileRewritten := false, broadcastUpdate := true })

/-! ## ProxyManager retry and region assignment (src/unnamed/part_000) -/

/-- An AWS SDK error as far as `shouldRetryError` inspects it: a message
and a code string. -/
structure AwsError where
  message : String
  code : String
deriving DecidableEq, Repr

/-- The `retryableErrors` signature list of `shouldRetryError`. -/
def retryableErrors : List String :=
  ["Too many concurrent attempts", "Throttling", "RequestLimitExceeded",
    "ServiceUnavailable", "InternalError", "Rate exceeded"]

/-- Substring containment over character lists, the semantics of JS
`String.prototype.includes`. -/
def charListContains (needle : List Char) : List Char → Bool
  | [] => needle.isEmpty
  | c :: rest => List.isPrefixOf needle (c :: rest) || charListContains needle rest

/-- `shouldRetryError(error)`: some signature occurs inside the message or
inside the code (JS `String.prototype.includes`). -/
def shouldRetryError (e : AwsError) : Bool :=
  retryableErrors.any (fun r =>
    charListContains r.toList e.message.toList || charListContains r.toList e.code.toList)

/-- The `retryConfig` constants: `maxRetries = 4`, `baseDelay = 1500`,
`maxDelay = 15000`. -/
structure RetryConfig where
  maxRetries : Nat
  baseDelay : Nat
  maxDelay : Nat
deriving DecidableEq, Repr

def retryConfig : RetryConfig := { maxRetries := 4, baseDelay := 1500, maxDelay := 15000 }

/-- The body of the `for (attempt = 1; attempt <= maxRetries; attempt++)`
loop of `retryWithBackoff`.  `op n` is the outcome of the `n`-th invocation
of `operation` (1-indexed).  The result pairs the propagated outcome with
the list of backoff delays actually awaited.  The fuel counts the retries
still permitted and is instantiated with `maxRetries - 1`, which the loop
can never exceed because the `attempt === maxRetries` test rethrows first. -/
def retryAux {α : Type} (cfg : RetryConfig) (op : Nat → Except AwsError α) :
    Nat → Nat → Except AwsError α × List Nat
  | attempt, fuel =>
    match op attempt with
    | .ok a => (.ok a, [])
    | .error e =>
      if shouldRetryError e = false ∨ attempt = cfg.maxRetries then (.error e, [])
      else
        match fuel with
        | 0 => (.error e, [])
        | fuel + 1 =>
          let d := min (cfg.baseDelay * 2 ^ (attempt - 1)) cfg.maxDelay
          let r := retryAux cfg op (attempt + 1) fuel
          (r.1, d :: r.2)

/-- `retryWithBackoff(operation, operationName, region)`: run the loop from
attempt 1 (the name and region feed logging only). -/
def retryWithBackoff {α : Type} (op : Nat → Except AwsError α) :
    Except AwsError α × List Nat :=
  retryAux retryConfig op 1 (retryConfig.maxRetries - 1)

/-- The number of invocations of `operation` that `retryWithBackoff`
performs: one more than the number of backoff delays it awaited. -/
def retryAttempts {α : Type} (op : Nat → Except AwsError α) : Nat :=
  (retryWithBackoff op).2.length + 1

/-- The `this.regions` default list of the `ProxyManager` constructor
(the commented-out regions are absent at runtime). -/
def defaultRegions : List String :=
  ["us-east-1", "us-east-2", "us-west-1", "ca-central-1"]

/-- The region-assignment loop of `createProxies(count, regions)`:
`availableRegions = regions || this.regions` (JS: only `null`/`undefined`
falls back — an empty array is truthy and is kept), then unit `i` gets
`availableRegions[i % availableRegions.length]`.  With an empty list the JS
index is `i % 0 = NaN` and the lookup yields `undefined`, modelled as
`none`. -/
def createProxiesTargetRegions (count : Nat) (regions : Option (List String))
    (defaults : List String) : List (Option String) :=
  let availableRegions := match regions with
    | some rs => rs
    | none => defaults
  (List.range count).map (fun i =>
    if availableRegions.length = 0 then none
    else availableRegions[i % availableRegions.length]?)

/-! ## Concurrency models for the region-resource creation paths
(src/unnamed/part_000, `createTaskDefinition` lines 593-629 and
`ensureSecurityGroup` lines 431-457)

JavaScript concurrency is cooperative: control can change hands only at
`await` points.  Each of the two functions is cut into the atomic segments
between its awaits, a scheduler is a list of thread choices, and a mock
cloud client (no pre-existing resources, creation succeeds on the first
attempt and returns a fixed handle) counts the underlying creation calls.
Scheduling a thread that is parked on an unresolved promise, or finished,
leaves the state unchanged. -/

/-- Program counter of one `ensureSecurityGroup(region)` caller.
`start`: before the synchronous cache check; `afterFind`: resumed from
`await findExistingSecurityGroup` (which found nothing); `afterCreate`:
resumed from the awaited creation; `done`: returned. -/
inductive SgPc where
  | start
  | afterFind
  | afterCreate
  | done
deriving DecidableEq, Repr

structure SgThread where
  pc : SgPc
  created : Bool
  gotCached : Bool
deriving DecidableEq, Repr

/-- Shared state of two concurrent `ensureSecurityGroup` callers for one
region: the `securityGroupCache` slot for that region and the mock client's
creation-call counter. -/
structure SgState where
  cache : Option Nat
  createCalls : Nat
  t1 : SgThread
  t2 : SgThread
deriving DecidableEq, Repr

/-- The mock handle returned by the cloud client. -/
def mockSgId : Nat := 7

def sgThreadStep (cache : Option Nat) (createCalls : Nat) (t : SgThread) :
    Option Nat × Nat × SgThread :=
  match t.pc with
  | .start =>
    match cache with
    | some _ => (cache, createCalls, { t with pc := .done, gotCached := true })
    | none => (cache, createCalls, { t with pc := .afterFind })
  | .afterFind =>
    (cache, createCalls + 1, { t with pc := .afterCreate, created := true })
  | .afterCreate =>
    (some mockSgId, createCalls, { t with pc := .done })
  | .done => (cache, createCalls, t)

/-- One scheduling step: `true` runs caller 1, `false` runs caller 2. -/
def sgStep (s : SgState) (choice : Bool) : SgState :=
  if choice then
    let r := sgThreadStep s.cache s.createCalls s.t1
    { s with cache := r.1, createCalls := r.2.1, t1 := r.2.2 }
  else
    let r := sgThreadStep s.cache s.createCalls s.t2
    { s with cache := r.1, createCalls := r.2.1, t2 := r.2.2 }

def sgInitThread : SgThread := { pc := .start, created := false, gotCached := false }

def sgInit : SgState :=
  { cache := none, createCalls := 0, t1 := sgInitThread, t2 := sgInitThread }

def sgRun (sched : List Bool) : SgState := sched.foldl sgStep sgInit

/-- Program counter of one `createTaskDefinition(region)` caller.
`start`: the synchronous prefix (cache check, mutex check, global-lock
check, and on the free path the creation of the mutex promise and the
synchronous start of `createTaskDefinitionWithMutex` up to its first
await); `waitMutex`: parked on the region mutex promise; `waitGlobal`:
inside the global-lock wait loop; `inCS`: resumed from the random delay,
about to issue the creation call; `awaitCreate`: parked on the creation
call; `cleanup`: the `finally` block; `done`: returned. -/
inductive TdPc where
  | start
  | waitMutex
  | waitGlobal
  | inCS
  | awaitCreate
  | cleanup
  | done
deriving DecidableEq, Fintype, Repr

structure TdThread where
  pc : TdPc
  created : Bool
  gotCached : Bool
deriving DecidableEq, Fintype, Repr

/-- Shared state of two concurrent `createTaskDefinition` callers for one
region: the cache slot (`taskDefinitionCache`), the region mutex entry
(`taskDefinitionMutex.has(region)`), whether the creation promise has
resolved, the global lock (`globalTaskDefinitionLock`), and the two
threads.  The mock creation-call count is recovered from the `created`
flags: the program counters are loop-free through `inCS`, so each thread
issues at most one call. -/
structure TdState where
  cache : Bool
  mutexHeld : Bool
  resolved : Bool
  glock : Bool
  t1 : TdThread
  t2 : TdThread
deriving DecidableEq, Fintype, Repr

def tdThreadStep (s : TdState) (t : TdThread) :
    (Bool × Bool × Bool × Bool) × TdThread :=
  let keep := (s.cache, s.mutexHeld, s.resolved, s.glock)
  match t.pc with
  | .start =>
    if s.cache then (keep, { t with pc := .done, gotCached := true })
    else if s.mutexHeld then (keep, { t with pc := .waitMutex })
    else if s.glock then (keep, { t with pc := .waitGlobal })
    else ((s.cache, true, s.resolved, true), { t with pc := .inCS })
  | .waitMutex =>
    if s.resolved = false then (keep, t)
    else if s.cache then (keep, { t with pc := .done, gotCached := true })
    else if s.glock then (keep, { t with pc := .waitGlobal })
    else ((s.cache, true, s.resolved, true), { t with pc := .inCS })
  | .waitGlobal =>
    if s.glock then (keep, t)
    else ((s.cache, true, s.resolved, true), { t with pc := .inCS })
  | .inCS =>
    (keep, { t with pc := .awaitCreate, created := true })
  | .awaitCreate =>
    ((true, s.mutexHeld, true, s.glock), { t with pc := .cleanup })
  | .cleanup =>
    ((s.cache, false, s.resolved, false), { t with pc := .done })
  | .done => (keep, t)

def tdStep (s : TdState) (choice : Bool) : TdState :=
  if choice then
    let r := tdThreadStep s s.t1
    { cache := r.1.1, mutexHeld := r.1.2.1, resolved := r.1.2.2.1, glock := r.1.2.2.2,
      t1 := r.2, t2 := s.t2 }
  else
    let r := tdThreadStep s s.t2
    { cache := r.1.1, mutexHeld := r.1.2.1, resolved := r.1.2.2.1, glock := r.1.2.2.2,
      t1 := s.t1, t2 := r.2 }

def tdInitThread : TdThread := { pc := .start, created := false, gotCached := false }

def tdInit : TdState :=
  { cache := false, mutexHeld := false, resolved := false, glock := false,
    t1 := tdInitThread, t2 := tdInitThread }

def tdRun (sched : List Bool) : TdState := sched.foldl tdStep tdInit

/-- Number of underlying `RegisterTaskDefinition` calls issued so far. -/
def tdCreateCalls (s : TdState) : Nat :=
  (if s.t1.created then 1 else 0) + (if s.t2.created then 1 else 0)

def tdInCSRange (p : TdPc) : Bool :=
  p == .inCS || p == .awaitCreate || p == .cleanup

/-- Inductive invariant of the two-caller `createTaskDefinition` model:
mutual exclusion of the creation section, agreement of the lock flags with
the program counters, and bookkeeping tying the cache, the resolved flag
and the `created`/`gotCached` flags together. -/
def tdInv (s : TdState) : Prop :=
  (tdInCSRange s.t1.pc && tdInCSRange s.t2.pc) = false ∧
  s.mutexHeld = (tdInCSRange s.t1.pc || tdInCSRange s.t2.pc) ∧
  s.glock = s.mutexHeld ∧
  s.cache = s.resolved ∧
  s.resolved = ((s.t1.created && (s.t1.pc == .cleanup || s.t1.pc == .done)) ||
    (s.t2.created && (s.t2.pc == .cleanup || s.t2.pc == .done))) ∧
  (s.t1.created && s.t2.created) = false ∧
  (s.t1.created → (s.t1.pc = .awaitCreate ∨ s.t1.pc = .cleanup ∨ s.t1.pc = .done)) ∧
  (s.t2.created → (s.t2.pc = .awaitCreate ∨ s.t2.pc = .cleanup ∨ s.t2.pc = .done)) ∧
  (s.t1.pc = .inCS → s.t1.created = false) ∧
  (s.t2.pc = .inCS → s.t2.created = false) ∧
  (s.t1.pc = .inCS → s.cache = false) ∧
  (s.t2.pc = .inCS → s.cache = false) ∧
  ((s.t1.pc = .awaitCreate ∨ s.t1.pc = .cleanup) → s.t1.created = true) ∧
  ((s.t2.pc = .awaitCreate ∨ s.t2.pc = .cleanup) → s.t2.created = true) ∧
  s.t1.pc ≠ .waitGlobal ∧
  s.t2.pc ≠ .waitGlobal ∧
  (s.t1.gotCached → (s.t1.pc = .done ∧ s.t1.created = false ∧ s.cache = true)) ∧
  (s.t2.gotCached → (s.t2.pc = .done ∧ s.t2.created = false ∧ s.cache = true)) ∧
  (s.t1.pc = .done → (s.t1.created ∨ s.t1.gotCached)) ∧
  (s.t2.pc = .done → (s.t2.created ∨ s.t2.gotCached))

instance : DecidablePred tdInv := fun s => by
  unfold tdInv; infer_instance

/-! ## Helper lemmas -/

theorem entryLE_refl (a : PriorityEntry) : entryLE a a :=
  Or.inr ⟨rfl, le_rfl⟩

theorem lookupKey_cons_pos {α : Type} {e : String × α} (t : List (String × α))
    {k : String} (he : (e.1 == k) = true) : lookupKey (e :: t) k = some e.2 := by
  simp [lookupKey, List.find?, he]

theorem lookupKey_cons_neg {α : Type} {e : String × α} (t : List (String × α))
    {k : String} (he : (e.1 == k) = false) : lookupKey (e :: t) k = lookupKey t k := by
  simp [lookupKey, List.find?, he]

theorem lookupKey_map_set {α : Type} (m : List (String × α)) (k : String) (v : α)
    (h : m.any (fun e => e.1 == k) = true) :
    lookupKey (m.map (fun e => if e.1 == k then (k, v) else e)) k = some v := by
  induction m with
  | nil => simp at h
  | cons e t ih =>
    rw [List.map_cons]
    cases he : (e.1 == k) with
    | true =>
      have hhead : (if true = true then (k, v) else e) = (k, v) := rfl
      rw [hhead, lookupKey_cons_pos _ (by simp)]
    | false =>
      have hhead : (if false = true then (k, v) else e) = e := rfl
      rw [hhead, lookupKey_cons_neg _ he]
      refine ih ?_
      simp only [List.any_cons, Bool.or_eq_true] at h
      rcases h with h | h
      · rw [he] at h; cases h
      · exact h

theorem lookupKey_append_single {α : Type} (m : List (String × α)) (k : String) (v : α)
    (h : ¬ m.any (fun e => e.1 == k) = true) :
    lookupKey (m ++ [(k, v)]) k = some v := by
  induction m with
  | nil => exact lookupKey_cons_pos _ (by simp)
  | cons e t ih =>
    simp only [List.any_cons, Bool.or_eq_true] at h
    push_neg at h
    rw [List.cons_append, lookupKey_cons_neg _ (by simpa using h.1)]
    exact ih h.2

theorem lookupKey_setKey_self {α : Type} (m : List (String × α)) (k : String) (v : α) :
    lookupKey (setKey m k v) k = some v := by
  unfold setKey
  split
  · exact lookupKey_map_set m k v (by assumption)
  · exact lookupKey_append_single m k v (by assumption)

theorem mem_setKey {α : Type} {m : List (String × α)} {k : String} {v : α}
    {z : String × α} (hz : z ∈ setKey m k v) : z = (k, v) ∨ z ∈ m := by
  unfold setKey at hz
  split at hz
  · rcases List.mem_map.mp hz with ⟨w, hw, hwz⟩
    by_cases hwk : (w.1 == k) = true
    · rw [if_pos hwk] at hwz
      exact Or.inl hwz.symm
    · rw [if_neg hwk] at hwz
      exact Or.inr (hwz ▸ hw)
  · rcases List.mem_append.mp hz with h | h
    · exact Or.inr h
    · exact Or.inl (by simpa using h)

theorem findIdx?_some_ne_nil {l : List String} {p : String → Bool} {i : Nat}
    (h : l.findIdx? p = some i) : l ≠ [] := by
  intro hl
  subst hl
  simp [List.findIdx?] at h

theorem find?_first_sorted (p : PriorityEntry → Bool) {l : List PriorityEntry}
    (hs : List.Pairwise entryLE l) {e : PriorityEntry} (he : e ∈ l) (hp : p e = true) :
    ∃ x, l.find? p = some x ∧ entryLE x e ∧ x ∈ l := by
  induction l with
  | nil => simp at he
  | cons a t ih =>
    rw [List.pairwise_cons] at hs
    cases hpa : p a with
    | true =>
      refine ⟨a, by simp [List.find?, hpa], ?_, List.mem_cons_self a t⟩
      rcases List.mem_cons.mp he with rfl | hmem
      · exact entryLE_refl e
      · exact hs.1 e hmem
    | false =>
      have he2 : e ∈ t := by
        rcases List.mem_cons.mp he with rfl | hmem
        · rw [hp] at hpa; cases hpa
        · exact hmem
      obtain ⟨x, hx, hxe, hxt⟩ := ih hs.2 he2
      exact ⟨x, by simp [List.find?, hpa]; exact hx, hxe, List.mem_cons_of_mem a hxt⟩

theorem mem_readyPriorityEntries {q : PriorityQueue} {now : Nat} {e : PriorityEntry} :
    e ∈ readyPriorityEntries q now ↔
    ∃ u info, (u, info) ∈ q.priorityMap ∧
      e = { url := u, priority := info.priority, addedAt := info.addedAt } ∧
      q.priorityCheckInterval ≤ now - (lookupKey q.lastPriorityCheck u).getD 0 := by
  unfold readyPriorityEntries
  rw [List.mem_filterMap]
  constructor
  · rintro ⟨⟨u, info⟩, hm, hf⟩
    by_cases hc : q.priorityCheckInterval ≤ now - (lookupKey q.lastPriorityCheck u).getD 0
    · rw [if_pos hc] at hf
      exact ⟨u, info, hm, (Option.some_inj.mp hf).symm, hc⟩
    · rw [if_neg hc] at hf
      cases hf
  · rintro ⟨u, info, hm, rfl, hcond⟩
    exact ⟨(u, info), hm, by rw [if_pos hcond]⟩

theorem setPriority_fields (q : PriorityQueue) (u : String) (p now : Nat) :
    (q.setPriority u p now).urls = q.urls ∧
    (q.setPriority u p now).currentIndex = q.currentIndex ∧
    (q.setPriority u p now).maxLineCuts = q.maxLineCuts ∧
    (q.setPriority u p now).priorityCheckInterval = q.priorityCheckInterval := by
  unfold PriorityQueue.setPriority
  split
  · exact ⟨rfl, rfl, rfl, rfl⟩
  · split
    · split
      · exact ⟨rfl, rfl, rfl, rfl⟩
      · exact ⟨rfl, rfl, rfl, rfl⟩
    · exact ⟨rfl, rfl, rfl, rfl⟩

theorem lookupKey_mem {α : Type} {m : List (String × α)} {k : String} {v : α}
    (h : lookupKey m k = some v) : ∃ u, (u, v) ∈ m := by
  unfold lookupKey at h
  rcases Option.map_eq_some'.mp h with ⟨w, hw, hw2⟩
  exact ⟨w.1, by rw [← hw2]; exact (List.mem_of_find?_eq_some hw)⟩

theorem PMapWF_setPriority {q : PriorityQueue} (h : PMapWF q) (u : String) (p now : Nat) :
    PMapWF (q.setPriority u p now) := by
  unfold PriorityQueue.setPriority
  split
  · intro e he
    exact h e (List.mem_of_mem_filter he)
  · rename_i hp
    split
    · rename_i existing hlook
      have hexist : existing.priority ≠ 0 := by
        rcases lookupKey_mem hlook with ⟨w, hw⟩
        exact h (w, existing) hw
      split
      · intro e he
        rcases mem_setKey he with rfl | he2
        · exact hexist
        · exact h e he2
      · intro e he
        rcases mem_setKey he with rfl | he2
        · exact hp
        · exact h e he2
    · intro e he
      rcases mem_setKey he with rfl | he2
      · exact hp
      · exact h e he2

theorem applySetPriorityOps_fields (q : PriorityQueue) (ops : List (String × Nat × Nat)) :
    (applySetPriorityOps q ops).urls = q.urls ∧
    (applySetPriorityOps q ops).currentIndex = q.currentIndex ∧
    (applySetPriorityOps q ops).maxLineCuts = q.maxLineCuts ∧
    (applySetPriorityOps q ops).priorityCheckInterval = q.priorityCheckInterval := by
  induction ops generalizing q with
  | nil => exact ⟨rfl, rfl, rfl, rfl⟩
  | cons op t ih =>
    have h1 := setPriority_fields q op.1 op.2.1 op.2.2
    have h2 := ih (q.setPriority op.1 op.2.1 op.2.2)
    unfold applySetPriorityOps at h2 ⊢
    rw [List.foldl_cons]
    exact ⟨h2.1.trans h1.1, h2.2.1.trans h1.2.1, h2.2.2.1.trans h1.2.2.1,
      h2.2.2.2.trans h1.2.2.2⟩

theorem PMapWF_applySetPriorityOps {q : PriorityQueue} (h : PMapWF q)
    (ops : List (String × Nat × Nat)) : PMapWF (applySetPriorityOps q ops) := by
  induction ops generalizing q with
  | nil => exact h
  | cons op t ih =>
    unfold applySetPriorityOps
    rw [List.foldl_cons]
    exact ih (PMapWF_setPriority h op.1 op.2.1 op.2.2)

theorem PMapWF_initQueue (urls : List String) : PMapWF (initQueue urls) := by
  intro e he
  cases he

theorem getNextPriorityUrl_of_candidate (q : PriorityQueue) (now : Nat) (e : PriorityEntry)
    (hc : q.getNextPriorityCandidate now = some e) :
    q.getNextPriorityUrl now =
      (some e.url, { q with lastPriorityCheck := setKey q.lastPriorityCheck e.url now }) := by
  unfold PriorityQueue.getNextPriorityUrl
  rw [hc]

theorem candidate_urls_ne_nil {q : PriorityQueue} {now : Nat} {e : PriorityEntry}
    (hc : q.getNextPriorityCandidate now = some e) : q.urls ≠ [] := by
  unfold PriorityQueue.getNextPriorityCandidate at hc
  have hcut : q.canCutInLine e.url e.priority = true := by
    have h2 := List.find?_some hc
    exact h2
  unfold PriorityQueue.canCutInLine at hcut
  cases hidx : q.urls.findIdx? (fun u => u == e.url) with
  | none => rw [hidx] at hcut; cases hcut
  | some i => exact findIdx?_some_ne_nil hidx

theorem getNextUrl_of_candidate (q : PriorityQueue) (now : Nat) (e : PriorityEntry)
    (hc : q.getNextPriorityCandidate now = some e) :
    q.getNextUrl now =
      (some e.url, { q with lastPriorityCheck := setKey q.lastPriorityCheck e.url now }) := by
  have hne : ¬ q.urls.length = 0 := by
    simpa using candidate_urls_ne_nil hc
  unfold PriorityQueue.getNextUrl
  rw [if_neg hne, getNextPriorityUrl_of_candidate q now e hc]

/-- Claim C2: when `next()` hands out a priority-promoted target, it records the
target's last-checked time but leaves the base cursor untouched; in the
concrete scenario (base rotation `[A, B, C, D]`, cursor at `A`, `C`
promoted to tier 1 at time 0, pulled at time 30000 when the throttle has
elapsed) `next()` returns `C` with the cursor still at `A`, and the
following non-priority `next()` returns `A` and moves the cursor to `B`. -/
theorem c2_priority_pull_frame :
    (∀ (q : PriorityQueue) (now : Nat) (e : PriorityEntry),
      q.getNextPriorityCandidate now = some e →
      (q.getNextUrl now).1 = some e.url ∧
      (q.getNextUrl now).2.currentIndex = q.currentIndex ∧
      lookupKey (q.getNextUrl now).2.lastPriorityCheck e.url = some now) ∧
    ((((initQueue ["A", "B", "C", "D"]).setPriority "C" 1 0).getNextUrl 30000).1 = some "C" ∧
     (((initQueue ["A", "B", "C", "D"]).setPriority "C" 1 0).getNextUrl 30000).2.currentIndex = 0 ∧
     lookupKey ((((initQueue ["A", "B", "C", "D"]).setPriority "C" 1 0).getNextUrl 30000).2.lastPriorityCheck) "C" = some 30000 ∧
     (((((initQueue ["A", "B", "C", "D"]).setPriority "C" 1 0).getNextUrl 30000).2.getNextUrl 30000).1 = some "A") ∧
     (((((initQueue ["A", "B", "C", "D"]).setPriority "C" 1 0).getNextUrl 30000).2.getNextUrl 30000).2.currentIndex = 1)) := by
  constructor
  · intro q now e hc
    rw [getNextUrl_of_candidate q now e hc]
    exact ⟨rfl, rfl, lookupKey_setKey_self _ _ _⟩
  · exact ⟨by decide, by decide, by decide, by decide, by decide⟩

theorem c2_priority_pull_frame_witness :
    ((((initQueue ["A", "B", "C", "D"]).setPriority "C" 1 0).getNextUrl 30000).1 =
      some (PriorityEntry.mk "C" 1 0).url ∧
    (((initQueue ["A", "B", "C", "D"]).setPriority "C" 1 0).getNextUrl 30000).2.currentIndex =
      ((initQueue ["A", "B", "C", "D"]).setPriority "C" 1 0).currentIndex ∧
    lookupKey ((((initQueue ["A", "B", "C", "D"]).setPriority "C" 1 0).getNextUrl 30000).2.lastPriorityCheck)
      (PriorityEntry.mk "C" 1 0).url = some 30000) :=
  c2_priority_pull_frame.1 ((initQueue ["A", "B", "C", "D"]).setPriority "C" 1 0) 30000
    (PriorityEntry.mk "C" 1 0) (by decide)

/-- Claim C6 counterexample: with a persisted entry agreeing with the new
observation on all six state slots and the stock flag (differing only in
`lastChecked`), `processStockData` does not update the store, yet it still
broadcasts to the web clients — the change notification is produced even
though nothing differed, contradicting the claim that neither effect
occurs. -/
theorem c6_counterexample :
    hasDataChanged
      (lookupKey [("u", StockEntry.mk "u" "2" "0" "" "" "" "" "true" "t1")] "u")
      (StockEntry.mk "u" "2" "0" "" "" "" "" "true" "t2") = false ∧
    (processStockDataStep [("u", StockEntry.mk "u" "2" "0" "" "" "" "" "true" "t1")] "u"
      (StockEntry.mk "u" "2" "0" "" "" "" "" "true" "t2")).2.storeUpdated = false ∧
    (processStockDataStep [("u", StockEntry.mk "u" "2" "0" "" "" "" "" "true" "t1")] "u"
      (StockEntry.mk "u" "2" "0" "" "" "" "" "true" "t2")).2.broadcastUpdate = true := by
  exact ⟨by decide, by decide, by decide⟩

/-- Claim C6 amended: after processing a target, the new observation is
compared with the last-persisted one via `hasDataChanged`; only when it
differs are the per-group store and its TSV file updated, but the broadcast
to collaborators is emitted unconditionally, changed or not. -/
theorem c6_change_detection :
    ∀ (urlMap : List (String × StockEntry)) (url : String) (e : StockEntry),
      (hasDataChanged (lookupKey urlMap url) e = true →
        processStockDataStep urlMap url e =
          (setKey urlMap url e,
            { storeUpdated := true, fileRewritten := true, broadcastUpdate := true })) ∧
      (hasDataChanged (lookupKey urlMap url) e = false →
        processStockDataStep urlMap url e =
          (urlMap,
            { storeUpdated := false, fileRewritten := false, broadcastUpdate := true })) := by
  intro urlMap url e
  constructor
  · intro h
    simp [processStockDataStep, h]
  · intro h
    simp [processStockDataStep, h]

theorem c6_change_detection_witness :
    processStockDataStep [("u", StockEntry.mk "u" "2" "0" "" "" "" "" "true" "t1")] "u"
      (StockEntry.mk "u" "2" "0" "" "" "" "" "true" "t2") =
      ([("u", StockEntry.mk "u" "2" "0" "" "" "" "" "true" "t1")],
        { storeUpdated := false, fileRewritten := false, broadcastUpdate := true }) :=
  (c6_change_detection [("u", StockEntry.mk "u" "2" "0" "" "" "" "" "true" "t1")] "u"
    (StockEntry.mk "u" "2" "0" "" "" "" "" "true" "t2")).2 (by decide)

/-- Claim C7 counterexample: `createProxies(1, [])` assigns `undefined` as the
region of the single unit (JS `[] || defaults` keeps the truthy empty
array and `i % 0` is `NaN`), rather than falling back to the internal
default region list, whose round-robin would have yielded `us-east-1`. -/
theorem c7_counterexample :
    createProxiesTargetRegions 1 (some []) defaultRegions = [none] ∧
    createProxiesTargetRegions 1 none defaultRegions = [some "us-east-1"] := by
  exact ⟨by decide, by decide⟩

/-- Claim C7 amended: unit `i` is assigned `availableRegions[i mod length]`
where `availableRegions` is the supplied list when the argument is present
(even when it is empty — JS `regions || this.regions` only replaces
`null`/`undefined`) and the internal default list when it is absent; with
an empty available list every unit's region is `undefined` (`none`) — the
call neither falls back to the defaults nor fails fast. -/
theorem c7_region_round_robin :
    ∀ (count : Nat) (rs defaults : List String) (i : Nat), i < count →
      ((createProxiesTargetRegions count (some rs) defaults).length = count ∧
       (rs ≠ [] →
         (createProxiesTargetRegions count (some rs) defaults).getD i none =
           rs[i % rs.length]?) ∧
       createProxiesTargetRegions count none defaults =
         createProxiesTargetRegions count (some defaults) defaults ∧
       (rs = [] →
         (createProxiesTargetRegions count (some rs) defaults).getD i none = none)) := by
  intro count rs defaults i hi
  refine ⟨by simp [createProxiesTargetRegions], ?_, rfl, ?_⟩
  · intro hne
    have hlen : ¬ rs.length = 0 := by simpa using hne
    unfold createProxiesTargetRegions
    rw [List.getD_eq_getElem?_getD, List.getElem?_map, List.getElem?_range hi]
    simp [hlen]
  · intro hrs
    subst hrs
    unfold createProxiesTargetRegions
    rw [List.getD_eq_getElem?_getD, List.getElem?_map, List.getElem?_range hi]
    simp

theorem c7_region_round_robin_witness :
    (createProxiesTargetRegions 2 (some ["r1", "r2", "r3"]) defaultRegions).getD 1 none =
      (["r1", "r2", "r3"])[1 % (["r1", "r2", "r3"] : List String).length]? :=
  ((c7_region_round_robin 2 ["r1", "r2", "r3"] defaultRegions 1 (by decide)).2.1) (by decide)

/-- Claim C10: `hasDataChanged` depends only on the six state slots and the stock
flag, never on `lastChecked`: two new entries agreeing on those fields get
the same verdict against any persisted entry, and a new observation
agreeing with the persisted entry on those fields (so possibly differing in
`lastChecked` alone) is reported unchanged and leaves the store and file
untouched. -/
theorem c10_timestamp_independence :
    (∀ (existing : Option StockEntry) (n1 n2 : StockEntry),
      n1.state0 = n2.state0 → n1.state1 = n2.state1 → n1.state2 = n2.state2 →
      n1.state3 = n2.state3 → n1.state4 = n2.state4 → n1.state5 = n2.state5 →
      n1.stock = n2.stock →
      hasDataChanged existing n1 = hasDataChanged existing n2) ∧
    (∀ (m : List (String × StockEntry)) (url : String) (e n : StockEntry),
      lookupKey m url = some e →
      e.state0 = n.state0 → e.state1 = n.state1 → e.state2 = n.state2 →
      e.state3 = n.state3 → e.state4 = n.state4 → e.state5 = n.state5 →
      e.stock = n.stock →
      hasDataChanged (some e) n = false ∧
      processStockDataStep m url n =
        (m, { storeUpdated := false, fileRewritten := false, broadcastUpdate := true })) := by
  constructor
  · intro existing n1 n2 h0 h1 h2 h3 h4 h5 hs
    cases existing with
    | none => rfl
    | some e =>
      simp only [hasDataChanged, h0, h1, h2, h3, h4, h5, hs]
  · intro m url e n hlook h0 h1 h2 h3 h4 h5 hs
    have hchg : hasDataChanged (some e) n = false := by
      simp [hasDataChanged, h0, h1, h2, h3, h4, h5, hs]
    refine ⟨hchg, ?_⟩
    simp [processStockDataStep, hlook, hchg]

theorem c10_timestamp_independence_witness :
    hasDataChanged (some (StockEntry.mk "u" "2" "0" "" "" "" "" "true" "t1"))
      (StockEntry.mk "u" "2" "0" "" "" "" "" "true" "t9") = false ∧
    processStockDataStep [("u", StockEntry.mk "u" "2" "0" "" "" "" "" "true" "t1")] "u"
      (StockEntry.mk "u" "2" "0" "" "" "" "" "true" "t9") =
      ([("u", StockEntry.mk "u" "2" "0" "" "" "" "" "true" "t1")],
        { storeUpdated := false, fileRewritten := false, broadcastUpdate := true }) :=
  c10_timestamp_independence.2 [("u", StockEntry.mk "u" "2" "0" "" "" "" "" "true" "t1")] "u"
    (StockEntry.mk "u" "2" "0" "" "" "" "" "true" "t1")
    (StockEntry.mk "u" "2" "0" "" "" "" "" "true" "t9")
    (by decide) rfl rfl rfl rfl rfl rfl rfl

theorem sum_map_tail_le (queues : List (List String)) :
    ((queues.map List.tail).map List.length).sum ≤ (queues.map List.length).sum := by
  induction queues with
  | nil => simp
  | cons q t ih =>
    simp only [List.map_cons, List.sum_cons]
    have hq : q.tail.length = q.length - 1 := List.length_tail q
    omega

theorem sum_map_tail_lt (queues : List (List String))
    (h : (queues.map List.length).sum ≠ 0) :
    ((queues.map List.tail).map List.length).sum < (queues.map List.length).sum := by
  induction queues with
  | nil => simp at h
  | cons q t ih =>
    simp only [List.map_cons, List.sum_cons] at h ⊢
    cases q with
    | nil =>
      simp only [List.length_nil, Nat.zero_add] at h
      have := ih h
      simpa using this
    | cons a as =>
      have := sum_map_tail_le t
      simp only [List.tail_cons, List.length_cons]
      omega

theorem interleaveGo_adequate :
    ∀ (f1 f2 : Nat) (queues : List (List String)),
      (queues.map List.length).sum ≤ f1 → (queues.map List.length).sum ≤ f2 →
      interleaveGo f1 queues = interleaveGo f2 queues := by
  intro f1
  induction f1 with
  | zero =>
    intro f2 qs h1 h2
    have hz : (qs.map List.length).sum = 0 := Nat.le_zero.mp h1
    cases f2 with
    | zero => rfl
    | succ g => simp [interleaveGo, hz]
  | succ f ih =>
    intro f2 qs h1 h2
    cases f2 with
    | zero =>
      have hz : (qs.map List.length).sum = 0 := Nat.le_zero.mp h2
      simp [interleaveGo, hz]
    | succ g =>
      by_cases hz : (qs.map List.length).sum = 0
      · simp [interleaveGo, hz]
      · have hlt := sum_map_tail_lt qs hz
        simp only [interleaveGo, hz, if_neg]
        rw [ih g (qs.map List.tail) (by omega) (by omega)]

/-- Claim C9: the base rotation interleaves the per-group url lists fairly:
while any group list is non-empty, one round takes the head of every
non-empty list in group order and the loop continues on the tails; in
particular groups `[p1a, p1b]` and `[p2a]` interleave to
`[p1a, p2a, p1b]`. -/
theorem c9_fair_interleaving :
    (∀ queues : List (List String),
      ((queues.map List.length).sum = 0 → interleaveUrls queues = []) ∧
      ((queues.map List.length).sum ≠ 0 →
        interleaveUrls queues =
          interleaveRound queues ++ interleaveUrls (queues.map List.tail))) ∧
    interleaveUrls [["p1a", "p1b"], ["p2a"]] = ["p1a", "p2a", "p1b"] := by
  constructor
  · intro qs
    constructor
    · intro hz
      unfold interleaveUrls
      rw [hz]
      rfl
    · intro hz
      unfold interleaveUrls
      obtain ⟨n, hn⟩ := Nat.exists_eq_succ_of_ne_zero hz
      have hlt := sum_map_tail_lt qs hz
      rw [hn, show interleaveGo (n + 1) qs =
        if (qs.map List.length).sum = 0 then []
        else interleaveRound qs ++ interleaveGo n (qs.map List.tail) from rfl]
      rw [if_neg hz]
      congr 1
      exact interleaveGo_adequate n _ (qs.map List.tail) (by omega) le_rfl
  · decide

theorem c9_fair_interleaving_witness :
    interleaveUrls [["p1a", "p1b"], ["p2a"]] =
      interleaveRound [["p1a", "p1b"], ["p2a"]] ++
        interleaveUrls ([["p1a", "p1b"], ["p2a"]].map List.tail) :=
  ((c9_fair_interleaving.1 [["p1a", "p1b"], ["p2a"]]).2) (by decide)

theorem getNextUrl_baseQueueAt (urls : List String) (j : Nat) (h : ¬ urls.length = 0) :
    (baseQueueAt urls j).getNextUrl 0 =
      (some (urls.getD j ""), baseQueueAt urls ((j + 1) % urls.length)) := by
  unfold PriorityQueue.getNextUrl PriorityQueue.getNextPriorityUrl
    PriorityQueue.getNextPriorityCandidate sortedReadyEntries readyPriorityEntries baseQueueAt
  simp [h, List.find?]

theorem pullN_baseQueueAt (urls : List String) (h : ¬ urls.length = 0) :
    ∀ (k j : Nat), j < urls.length →
      pullN (baseQueueAt urls j) k = baseQueueAt urls ((j + k) % urls.length) := by
  intro k
  induction k with
  | zero =>
    intro j hj
    unfold pullN
    rw [Nat.add_zero, Nat.mod_eq_of_lt hj]
  | succ n ih =>
    intro j hj
    show pullN ((baseQueueAt urls j).getNextUrl 0).2 n = _
    rw [getNextUrl_baseQueueAt urls j h]
    rw [ih ((j + 1) % urls.length) (Nat.mod_lt _ (Nat.pos_of_ne_zero h))]
    congr 1
    rw [Nat.mod_add_mod]
    congr 1
    omega

/-- Claim C8 counterexample: over the rotation `[A, B]`, after `k = 2`
non-priority pulls the reported cycle is `1`, not `floor(2/2) + 1 = 2` as
the claim derives from a monotonic cursor — the cursor wraps modulo the
rotation length at every pull (line 673), so it is not monotonic. -/
theorem c8_counterexample :
    (pullN (initQueue ["A", "B"]) 2).getStatus.cycle ≠ 2 / 2 + 1 := by
  decide

/-- Claim C8 amended: the base cursor wraps modulo the rotation length on every
non-priority pull, so after `k` pulls over `n` targets it sits at `k mod n`;
`status()` reports the 1-indexed position `(k mod n) + 1` and the cycle
count `floor((k mod n)/n) + 1`, which is therefore always `1` — the cursor
is not monotonic and the reported cycle never advances. -/
theorem c8_cursor_wraps :
    ∀ (urls : List String) (k : Nat), urls ≠ [] →
      (pullN (initQueue urls) k).currentIndex = k % urls.length ∧
      (pullN (initQueue urls) k).getStatus =
        { totalUrls := urls.length, currentPosition := k % urls.length + 1, cycle := 1 } := by
  intro urls k h
  have hlen : ¬ urls.length = 0 := by simpa using h
  have h0 : initQueue urls = baseQueueAt urls 0 := rfl
  rw [h0, pullN_baseQueueAt urls hlen k 0 (Nat.pos_of_ne_zero hlen)]
  have hmod : (0 + k) % urls.length = k % urls.length := by rw [Nat.zero_add]
  constructor
  · rw [hmod]; rfl
  · unfold PriorityQueue.getStatus baseQueueAt
    rw [hmod]
    have hdiv : k % urls.length / urls.length = 0 :=
      Nat.div_eq_of_lt (Nat.mod_lt _ (Nat.pos_of_ne_zero hlen))
    simp [hdiv]

theorem c8_cursor_wraps_witness :
    (pullN (initQueue ["A", "B"]) 3).currentIndex = 3 % (["A", "B"] : List String).length ∧
    (pullN (initQueue ["A", "B"]) 3).getStatus =
      { totalUrls := (["A", "B"] : List String).length,
        currentPosition := 3 % (["A", "B"] : List String).length + 1, cycle := 1 } :=
  c8_cursor_wraps ["A", "B"] 3 (by decide)

/-- Claim C1: with `maxLineCuts = 5`, `nextPriorityTarget` never returns a
candidate whose circular forward distance from the cursor exceeds its
tier's cut limit (tier 1: 10, tier 2: 5, tier 3: 2), and a sole tier-1
record sitting exactly 10 steps ahead of the cursor is returned as soon as
its 30-second throttle window has elapsed. -/
theorem c1_line_cut_bound :
    (∀ (q : PriorityQueue) (now : Nat) (e : PriorityEntry),
      q.maxLineCuts = 5 →
      q.getNextPriorityCandidate now = some e →
      ∃ i, q.urls.findIdx? (fun u => u == e.url) = some i ∧
        cutDistance q.urls.length q.currentIndex i ≤ maxCutsForPriority 5 e.priority) ∧
    maxCutsForPriority 5 1 = 10 ∧
    maxCutsForPriority 5 2 = 5 ∧
    maxCutsForPriority 5 3 = 2 ∧
    (∀ (q : PriorityQueue) (now : Nat) (u : String) (t i : Nat),
      q.maxLineCuts = 5 →
      q.priorityCheckInterval = 30000 →
      q.priorityMap = [(u, { priority := 1, addedAt := t })] →
      30000 ≤ now - (lookupKey q.lastPriorityCheck u).getD 0 →
      q.urls.findIdx? (fun v => v == u) = some i →
      cutDistance q.urls.length q.currentIndex i = 10 →
      (q.getNextPriorityUrl now).1 = some u) := by
  refine ⟨?_, rfl, rfl, rfl, ?_⟩
  · intro q now e h5 hc
    unfold PriorityQueue.getNextPriorityCandidate at hc
    have hcut : q.canCutInLine e.url e.priority = true := by
      have h2 := List.find?_some hc
      exact h2
    unfold PriorityQueue.canCutInLine at hcut
    cases hidx : q.urls.findIdx? (fun u => u == e.url) with
    | none => rw [hidx] at hcut; cases hcut
    | some i =>
      rw [hidx] at hcut
      refine ⟨i, rfl, ?_⟩
      rw [← h5]
      exact of_decide_eq_true hcut
  · intro q now u t i h5 hint hmap hthr hidx hdist
    have hready : readyPriorityEntries q now = [{ url := u, priority := 1, addedAt := t }] := by
      unfold readyPriorityEntries
      rw [hmap]
      simp only [List.filterMap_cons, List.filterMap_nil, hint]
      rw [if_pos hthr]
    have hsort : sortedReadyEntries q now = [{ url := u, priority := 1, addedAt := t }] := by
      unfold sortedReadyEntries
      rw [hready]
      rfl
    have hcan : q.canCutInLine u 1 = true := by
      unfold PriorityQueue.canCutInLine
      rw [hidx]
      show decide (cutDistance q.urls.length q.currentIndex i ≤
        maxCutsForPriority q.maxLineCuts 1) = true
      rw [hdist, h5]
      rfl
    have hcand : q.getNextPriorityCandidate now =
        some { url := u, priority := 1, addedAt := t } := by
      unfold PriorityQueue.getNextPriorityCandidate
      rw [hsort]
      simp [List.find?, hcan]
    unfold PriorityQueue.getNextPriorityUrl
    rw [hcand]

theorem c1_line_cut_bound_witness :
    (({ urls := ["u0", "u1", "u2", "u3", "u4", "u5", "u6", "u7", "u8", "u9", "u10"],
        currentIndex := 0,
        priorityMap := [("u10", { priority := 1, addedAt := 0 })],
        lastPriorityCheck := [],
        maxLineCuts := 5,
        priorityCheckInterval := 30000 } : PriorityQueue).getNextPriorityUrl 30000).1 =
      some "u10" :=
  c1_line_cut_bound.2.2.2.2
    { urls := ["u0", "u1", "u2", "u3", "u4", "u5", "u6", "u7", "u8", "u9", "u10"],
      currentIndex := 0,
      priorityMap := [("u10", { priority := 1, addedAt := 0 })],
      lastPriorityCheck := [],
      maxLineCuts := 5,
      priorityCheckInterval := 30000 }
    30000 "u10" 0 10 rfl rfl rfl (by decide) (by decide) (by decide)

/-- Claim C3: in every queue state reachable from an initialized queue by
`setPriority` calls, `nextPriorityTarget` only ever returns a record whose
last-checked time is at least 30 seconds old (or never set, read as 0),
the candidate list it scans is sorted by tier ascending with older
promotion time winning ties, and whenever some tier-1 record passes both
the throttle and the cut-distance check the returned record is itself a
tier-1 record — tier-2/3 records are never preferred over a qualified
tier-1. -/
theorem c3_tier1_never_skipped :
    ∀ (urls : List String) (ops : List (String × Nat × Nat)) (now : Nat),
      (∀ e, (applySetPriorityOps (initQueue urls) ops).getNextPriorityCandidate now = some e →
        ∃ info, ((e.url, info) ∈ (applySetPriorityOps (initQueue urls) ops).priorityMap ∧
          e.priority = info.priority ∧ e.addedAt = info.addedAt) ∧
          30000 ≤ now -
            (lookupKey (applySetPriorityOps (initQueue urls) ops).lastPriorityCheck e.url).getD 0) ∧
      List.Pairwise entryLE (sortedReadyEntries (applySetPriorityOps (initQueue urls) ops) now) ∧
      (∀ u info, (u, info) ∈ (applySetPriorityOps (initQueue urls) ops).priorityMap →
        info.priority = 1 →
        30000 ≤ now -
          (lookupKey (applySetPriorityOps (initQueue urls) ops).lastPriorityCheck u).getD 0 →
        (applySetPriorityOps (initQueue urls) ops).canCutInLine u 1 = true →
        ∃ e, (applySetPriorityOps (initQueue urls) ops).getNextPriorityCandidate now = some e ∧
          e.priority = 1) := by
  intro urls ops now
  have hint : (applySetPriorityOps (initQueue urls) ops).priorityCheckInterval = 30000 :=
    (applySetPriorityOps_fields (initQueue urls) ops).2.2.2
  have hwf : PMapWF (applySetPriorityOps (initQueue urls) ops) :=
    PMapWF_applySetPriorityOps (PMapWF_initQueue urls) ops
  refine ⟨?_, ?_, ?_⟩
  · intro e hc
    have hmem : e ∈ sortedReadyEntries (applySetPriorityOps (initQueue urls) ops) now := by
      unfold PriorityQueue.getNextPriorityCandidate at hc
      exact List.mem_of_find?_eq_some hc
    have hready : e ∈ readyPriorityEntries (applySetPriorityOps (initQueue urls) ops) now := by
      unfold sortedReadyEntries at hmem
      exact (List.perm_insertionSort entryLE _).mem_iff.mp hmem
    rcases mem_readyPriorityEntries.mp hready with ⟨u, info, hm, he, hcond⟩
    subst he
    rw [hint] at hcond
    exact ⟨info, ⟨hm, rfl, rfl⟩, hcond⟩
  · unfold sortedReadyEntries
    exact List.sorted_insertionSort entryLE _
  · intro u info hm hp hthr hcut
    have he0 : ({ url := u, priority := info.priority, addedAt := info.addedAt } : PriorityEntry) ∈
        readyPriorityEntries (applySetPriorityOps (initQueue urls) ops) now :=
      mem_readyPriorityEntries.mpr ⟨u, info, hm, rfl, by rw [hint]; exact hthr⟩
    have he0s : ({ url := u, priority := info.priority, addedAt := info.addedAt } : PriorityEntry) ∈
        sortedReadyEntries (applySetPriorityOps (initQueue urls) ops) now := by
      unfold sortedReadyEntries
      exact (List.perm_insertionSort entryLE _).mem_iff.mpr he0
    have hsorted : List.Pairwise entryLE
        (sortedReadyEntries (applySetPriorityOps (initQueue urls) ops) now) := by
      unfold sortedReadyEntries
      exact List.sorted_insertionSort entryLE _
    have hpe : (fun e => (applySetPriorityOps (initQueue urls) ops).canCutInLine e.url e.priority)
        ({ url := u, priority := info.priority, addedAt := info.addedAt } : PriorityEntry) = true := by
      show (applySetPriorityOps (initQueue urls) ops).canCutInLine u info.priority = true
      rw [hp]
      exact hcut
    obtain ⟨x, hx, hxle, hxmem⟩ := find?_first_sorted
      (fun e => (applySetPriorityOps (initQueue urls) ops).canCutInLine e.url e.priority)
      hsorted he0s hpe
    refine ⟨x, ?_, ?_⟩
    · unfold PriorityQueue.getNextPriorityCandidate
      exact hx
    have hxready : x ∈ readyPriorityEntries (applySetPriorityOps (initQueue urls) ops) now := by
      unfold sortedReadyEntries at hxmem
      exact (List.perm_insertionSort entryLE _).mem_iff.mp hxmem
    rcases mem_readyPriorityEntries.mp hxready with ⟨u2, info2, hm2, hx2, _⟩
    have hx0 : x.priority ≠ 0 := by
      rw [hx2]
      exact hwf (u2, info2) hm2
    unfold entryLE at hxle
    simp only at hxle
    omega

theorem c3_tier1_never_skipped_witness :
    ∃ e, (applySetPriorityOps (initQueue ["A", "B"]) [("A", 2, 0), ("B", 1, 0)]).getNextPriorityCandidate 30000 =
      some e ∧ e.priority = 1 :=
  (c3_tier1_never_skipped ["A", "B"] [("A", 2, 0), ("B", 1, 0)] 30000).2.2 "B"
    { priority := 1, addedAt := 0 } (by decide) rfl (by decide) (by decide)

theorem retryAux_retry_step {α : Type} (cfg : RetryConfig) (op : Nat → Except AwsError α)
    (attempt f : Nat) (e : AwsError) (hop : op attempt = .error e)
    (hcond : ¬ (shouldRetryError e = false ∨ attempt = cfg.maxRetries)) :
    retryAux cfg op attempt (f + 1) =
      ((retryAux cfg op (attempt + 1) f).1,
        min (cfg.baseDelay * 2 ^ (attempt - 1)) cfg.maxDelay ::
          (retryAux cfg op (attempt + 1) f).2) := by
  conv_lhs => rw [retryAux]
  rw [hop]
  show (if shouldRetryError e = false ∨ attempt = cfg.maxRetries
      then ((Except.error e : Except AwsError α), ([] : List Nat))
      else match f + 1 with
        | 0 => ((Except.error e : Except AwsError α), ([] : List Nat))
        | Nat.succ fuel =>
          let d := min (cfg.baseDelay * 2 ^ (attempt - 1)) cfg.maxDelay
          let r := retryAux cfg op (attempt + 1) fuel
          (r.1, d :: r.2)) = _
  rw [if_neg hcond]

theorem retryAux_spec {α : Type} (cfg : RetryConfig) (op : Nat → Except AwsError α) :
    ∀ (fuel attempt : Nat), 1 ≤ attempt → attempt ≤ cfg.maxRetries →
      fuel = cfg.maxRetries - attempt →
      ∃ n, attempt ≤ n ∧ n ≤ cfg.maxRetries ∧
        (retryAux cfg op attempt fuel).1 = op n ∧
        (retryAux cfg op attempt fuel).2 =
          (List.range' attempt (n - attempt)).map
            (fun j => min (cfg.baseDelay * 2 ^ (j - 1)) cfg.maxDelay) ∧
        (∀ j, attempt ≤ j → j < n → ∃ e, op j = .error e ∧ shouldRetryError e = true) ∧
        (n < cfg.maxRetries →
          (∃ a, op n = .ok a) ∨ ∃ e, op n = .error e ∧ shouldRetryError e = false) := by
  intro fuel
  induction fuel with
  | zero =>
    intro attempt h1 hle hf
    have heq : attempt = cfg.maxRetries := by omega
    refine ⟨attempt, le_rfl, hle, ?_⟩
    cases hop : op attempt with
    | ok a =>
      refine ⟨by simp [retryAux, hop], by simp [retryAux, hop], ?_, ?_⟩
      · intro j hj1 hj2; omega
      · intro hn; exact Or.inl ⟨a, rfl⟩
    | error e =>
      have hcond : shouldRetryError e = false ∨ attempt = cfg.maxRetries := Or.inr heq
      refine ⟨?_, ?_, ?_, ?_⟩
      · simp [retryAux, hop, hcond]
      · simp [retryAux, hop, hcond]
      · intro j hj1 hj2; omega
      · intro hn; omega
  | succ f ih =>
    intro attempt h1 hle hf
    cases hop : op attempt with
    | ok a =>
      refine ⟨attempt, le_rfl, hle, by simp [retryAux, hop], by simp [retryAux, hop], ?_, ?_⟩
      · intro j hj1 hj2; omega
      · intro hn; exact Or.inl ⟨a, hop⟩
    | error e =>
      cases hr : shouldRetryError e with
      | false =>
        have hcond : shouldRetryError e = false ∨ attempt = cfg.maxRetries := Or.inl hr
        refine ⟨attempt, le_rfl, hle, ?_, ?_, ?_, ?_⟩
        · simp [retryAux, hop, hcond]
        · simp [retryAux, hop, hcond]
        · intro j hj1 hj2; omega
        · intro hn; exact Or.inr ⟨e, hop, hr⟩
      | true =>
        have hlt : attempt < cfg.maxRetries := by omega
        have hcond : ¬ (shouldRetryError e = false ∨ attempt = cfg.maxRetries) := by
          rw [hr]
          push_neg
          exact ⟨by simp, by omega⟩
        obtain ⟨n, hn1, hn2, hres, hdel, htrans, hfin⟩ :=
          ih (attempt + 1) (by omega) (by omega) (by omega)
        have hstep := retryAux_retry_step cfg op attempt f e hop hcond
        refine ⟨n, by omega, hn2, ?_, ?_, ?_, hfin⟩
        · rw [hstep]
          exact hres
        · rw [hstep]
          have hrange : n - attempt = (n - (attempt + 1)) + 1 := by omega
          rw [hrange, List.range'_succ, List.map_cons]
          simp only [List.cons.injEq]
          refine ⟨?_, hdel⟩
          trivial
        · intro j hj1 hj2
          by_cases hj : j = attempt
          · subst hj
            exact ⟨e, hop, hr⟩
          · exact htrans j (by omega) hj2

/-- Claim C5: `retryWithBackoff` makes between 1 and `maxRetries = 4` attempts;
before each retry after failed attempt `a` it waits
`min(1500 * 2^(a-1), 15000)` milliseconds; a retry happens only when
`shouldRetryError` classifies the error as transient (the
throttling / rate-limit / service-unavailable / internal-error signature
list); and the value propagated to the caller is exactly the outcome of
the final attempt — a non-transient error, or the last error once attempts
are exhausted, is rethrown unchanged. -/
theorem c5_retry_with_backoff :
    ∀ (α : Type) (op : Nat → Except AwsError α),
      1 ≤ retryAttempts op ∧ retryAttempts op ≤ 4 ∧
      (retryWithBackoff op).1 = op (retryAttempts op) ∧
      (retryWithBackoff op).2 =
        (List.range' 1 (retryAttempts op - 1)).map
          (fun j => min (1500 * 2 ^ (j - 1)) 15000) ∧
      (∀ j, 1 ≤ j → j < retryAttempts op →
        ∃ e, op j = .error e ∧ shouldRetryError e = true) ∧
      (retryAttempts op < 4 →
        (∃ a, op (retryAttempts op) = .ok a) ∨
        ∃ e, op (retryAttempts op) = .error e ∧ shouldRetryError e = false) := by
  intro α op
  obtain ⟨n, hn1, hn2, hres, hdel, htrans, hfin⟩ :=
    retryAux_spec retryConfig op (retryConfig.maxRetries - 1) 1 le_rfl (by decide) rfl
  have hcfg : retryConfig.maxRetries = 4 := rfl
  have hatt : retryAttempts op = n := by
    unfold retryAttempts retryWithBackoff
    rw [hdel, List.length_map, List.length_range']
    omega
  rw [hatt]
  have hbase : retryConfig.baseDelay = 1500 := rfl
  have hmax : retryConfig.maxDelay = 15000 := rfl
  refine ⟨hn1, by omega, hres, ?_, htrans, by rw [← hcfg]; exact hfin⟩
  rw [← hbase, ← hmax]
  exact hdel

theorem c5_retry_with_backoff_witness :
    1 ≤ retryAttempts (fun _ => (.error { message := "Throttling", code := "" } : Except AwsError Nat)) ∧
    retryAttempts (fun _ => (.error { message := "Throttling", code := "" } : Except AwsError Nat)) ≤ 4 ∧
    (retryWithBackoff (fun _ => (.error { message := "Throttling", code := "" } : Except AwsError Nat))).1 =
      (fun _ => (.error { message := "Throttling", code := "" } : Except AwsError Nat))
        (retryAttempts (fun _ => (.error { message := "Throttling", code := "" } : Except AwsError Nat))) :=
  ⟨(c5_retry_with_backoff Nat (fun _ => .error { message := "Throttling", code := "" })).1,
   (c5_retry_with_backoff Nat (fun _ => .error { message := "Throttling", code := "" })).2.1,
   (c5_retry_with_backoff Nat (fun _ => .error { message := "Throttling", code := "" })).2.2.1⟩

set_option maxRecDepth 8000
set_option maxHeartbeats 8000000

theorem tdInv_step_fields : ∀ (c cache mutexHeld resolved glock : Bool) (pc1 : TdPc)
    (cr1 gc1 : Bool) (pc2 : TdPc) (cr2 gc2 : Bool),
    tdInv ⟨cache, mutexHeld, resolved, glock, ⟨pc1, cr1, gc1⟩, ⟨pc2, cr2, gc2⟩⟩ →
    tdInv (tdStep ⟨cache, mutexHeld, resolved, glock, ⟨pc1, cr1, gc1⟩, ⟨pc2, cr2, gc2⟩⟩ c) := by
  decide

theorem tdExtract_fields : ∀ (cache mutexHeld resolved glock : Bool) (pc1 : TdPc)
    (cr1 gc1 : Bool) (pc2 : TdPc) (cr2 gc2 : Bool),
    tdInv ⟨cache, mutexHeld, resolved, glock, ⟨pc1, cr1, gc1⟩, ⟨pc2, cr2, gc2⟩⟩ →
    tdCreateCalls ⟨cache, mutexHeld, resolved, glock, ⟨pc1, cr1, gc1⟩, ⟨pc2, cr2, gc2⟩⟩ ≤ 1 ∧
    (pc1 = .done → pc2 = .done →
      tdCreateCalls ⟨cache, mutexHeld, resolved, glock, ⟨pc1, cr1, gc1⟩, ⟨pc2, cr2, gc2⟩⟩ = 1 ∧
      (cr1 = false → gc1 = true) ∧ (cr2 = false → gc2 = true)) := by
  decide

theorem tdInv_step (s : TdState) (c : Bool) (h : tdInv s) : tdInv (tdStep s c) := by
  rcases s with ⟨cache, mutexHeld, resolved, glock, ⟨pc1, cr1, gc1⟩, ⟨pc2, cr2, gc2⟩⟩
  exact tdInv_step_fields c cache mutexHeld resolved glock pc1 cr1 gc1 pc2 cr2 gc2 h

theorem tdInv_extract (s : TdState) (h : tdInv s) :
    tdCreateCalls s ≤ 1 ∧
    (s.t1.pc = .done → s.t2.pc = .done →
      tdCreateCalls s = 1 ∧
      (s.t1.created = false → s.t1.gotCached = true) ∧
      (s.t2.created = false → s.t2.gotCached = true)) := by
  rcases s with ⟨cache, mutexHeld, resolved, glock, ⟨pc1, cr1, gc1⟩, ⟨pc2, cr2, gc2⟩⟩
  exact tdExtract_fields cache mutexHeld resolved glock pc1 cr1 gc1 pc2 cr2 gc2 h

theorem tdInv_init : tdInv tdInit := by decide

theorem tdInv_foldl : ∀ (sched : List Bool) (s : TdState), tdInv s →
    tdInv (sched.foldl tdStep s) := by
  intro sched
  induction sched with
  | nil => intro s h; exact h
  | cons c t ih =>
    intro s h
    rw [List.foldl_cons]
    exact ih (tdStep s c) (tdInv_step s c h)

theorem tdInv_run (sched : List Bool) : tdInv (tdRun sched) :=
  tdInv_foldl sched tdInit tdInv_init

/-- Claim C4 counterexample: `ensureSecurityGroup` takes no mutex, so two
concurrent same-region callers can interleave (both pass the cache check,
both resume from the existence probe having found nothing, both enter
creation) so that the mock cloud client records two security-group
creation calls, and the second caller completes without ever blocking on a
mutex or consuming the cached value. -/
theorem c4_counterexample :
    (sgRun [true, false, true, false, true, false]).createCalls = 2 ∧
    (sgRun [true, false, true, false, true, false]).t1.pc = .done ∧
    (sgRun [true, false, true, false, true, false]).t2.pc = .done ∧
    (sgRun [true, false, true, false, true, false]).t2.gotCached = false := by
  exact ⟨by decide, by decide, by decide, by decide⟩

/-- Claim C4 amended: for `createTaskDefinition` the region mutex does give the
claimed guarantee — under every interleaving of two same-region callers at
most one underlying task-definition creation call is issued, and whenever
both callers have returned exactly one creation happened and the caller
that did not create obtained the cached value; `ensureSecurityGroup`,
however, has no such mutex and admits an interleaving with two underlying
creation calls (see the counterexample). -/
theorem c4_task_definition_mutex :
    ∀ sched : List Bool,
      tdCreateCalls (tdRun sched) ≤ 1 ∧
      ((tdRun sched).t1.pc = .done → (tdRun sched).t2.pc = .done →
        tdCreateCalls (tdRun sched) = 1 ∧
        ((tdRun sched).t1.created = false → (tdRun sched).t1.gotCached = true) ∧
        ((tdRun sched).t2.created = false → (tdRun sched).t2.gotCached = true)) :=
  fun sched => tdInv_extract (tdRun sched) (tdInv_run sched)

theorem c4_task_definition_mutex_witness :
    tdCreateCalls (tdRun [true, true, true, true, false]) = 1 :=
  ((c4_task_definition_mutex [true, true, true, true, false]).2 (by decide) (by decide)).1
